import Mathlib

/-!
Shallow embedding of `example/plot_nemd.py`, a post-processing script for
NEMD (non-equilibrium molecular dynamics) simulation output.  Numeric values
are modelled as rationals (`ℚ`); the NaN that `numpy.mean` produces on an
empty slice is modelled as `none : Option ℚ`.  File contents are modelled
either as a `String` built up exactly in the order of the script's
`file.writelines` calls, or as a `List String` of emitted lines together with
an `Except` capturing the Python `IndexError` behaviour.
-/

namespace PlotNemd

/-- `numpy.mean` on a 1-D slice: the arithmetic mean of the entries, or
`none` (modelling NaN) when the slice is empty. -/
def npMean (xs : List ℚ) : Option ℚ :=
  if xs.isEmpty then none else some (xs.sum / xs.length)

/-- `temp_ave=mean(T[int(ndata/2)+1:,1:],axis=0)`: drop the rows up to and
including the midpoint index `int(ndata/2)`, drop the first group column of
every remaining row, and take the columnwise mean.  `w` is the number of
group columns of `T` (its second shape component); the result has one entry
per retained group column `j + 1` for `j < w - 1`. -/
def temp_ave (w : ℕ) (T : List (List ℚ)) : List (Option ℚ) :=
  (List.range (w - 1)).map (fun j =>
    npMean (((T.drop (T.length / 2 + 1)).map (fun row => row.drop 1)).map
      (fun row => row.getD j 0)))

/-- The spec's wording of the steady-state reduction, for the refinement
claim: one value per retained group `g + 1`, namely the mean of column
`g + 1` over the rows strictly after the midpoint index. -/
def temp_ave_spec (w : ℕ) (T : List (List ℚ)) : List ℚ :=
  (List.range (w - 1)).map (fun g =>
    (∑ i ∈ Finset.Ico (T.length / 2 + 1) T.length, (T.getD i []).getD (g + 1) 0) /
      ((Finset.Ico (T.length / 2 + 1) T.length).card : ℚ))

/-- `Q1=(Ein[int(ndata/2)]-Ein[-1])/(ndata/2)/dt/Ns`.  The index uses the
floor of `ndata/2`, the denominator the exact rational `ndata/2`;
`Ein[-1]` is the last entry. -/
def Q1 (Ein : List ℚ) (ndata : ℕ) (dt Ns : ℚ) : ℚ :=
  (Ein.getD (ndata / 2) 0 - Ein.getD (ndata - 1) 0) / ((ndata : ℚ) / 2) / dt / Ns

/-- `Q2=(Eout[-1]-Eout[int(ndata/2)])/(ndata/2)/dt/Ns`. -/
def Q2 (Eout : List ℚ) (ndata : ℕ) (dt Ns : ℚ) : ℚ :=
  (Eout.getD (ndata - 1) 0 - Eout.getD (ndata / 2) 0) / ((ndata : ℚ) / 2) / dt / Ns

/-- `Q=mean([Q1,Q1])`: the script averages `Q1` with itself (the `Eout`
series never enters the value). -/
def Q (Ein Eout : List ℚ) (ndata : ℕ) (dt Ns : ℚ) : Option ℚ :=
  npMean [Q1 Ein ndata dt Ns, Q1 Ein ndata dt Ns]

/-- `l=[41.948415859093096,41.948415859093096,41.948415859093096]`, the
cell edge lengths in Å, as exact rationals. -/
def l : List ℚ :=
  [41948415859093096 / 10 ^ 15, 41948415859093096 / 10 ^ 15, 41948415859093096 / 10 ^ 15]

/-- `A=l[0]*l[1]`: cross-sectional area in Å². -/
def A : ℚ := l.getD 0 0 * l.getD 1 0

/-- `G=1.6*10**5*Q/deltaT/A`, as a function of the flux and temperature
difference (the area is the hard-coded literal `A`). -/
def G (Qv deltaT : ℚ) : ℚ := (1.6 : ℚ) * 10 ^ 5 * Qv / deltaT / A

/-- The conductance formula with the area as an explicit argument, used to
state the area-scaling property. -/
def G_area (Qv deltaT Av : ℚ) : ℚ := (1.6 : ℚ) * 10 ^ 5 * Qv / deltaT / Av

/-- `Lx=l[0]`. -/
def Lx : ℚ := l.getD 0 0

/-- `Ly=4.1948415859093096`: the locally overridden cell-width literal used
in the spectral step (one tenth of the cell edge length in `l`). -/
def Ly : ℚ := 41948415859093096 / 10 ^ 16

/-- `Lz=l[2]`. -/
def Lz : ℚ := l.getD 2 0

/-- `V=Lx*Ly*Lz`: the cell volume used in the spectral step. -/
def V : ℚ := Lx * Ly * Lz

/-- `Gc=1.6*10**4*(shc["jwi"]+shc["jwo"])/V/deltaT`, elementwise over the
two frequency-domain component arrays. -/
def Gc (jwi jwo : List ℚ) (deltaT : ℚ) : List ℚ :=
  (List.zipWith (fun a b => a + b) jwi jwo).map
    (fun x => (1.6 : ℚ) * 10 ^ 4 * x / V / deltaT)

/-- `corr_time=(shc["Ki"]+shc["Ko"])/Ly`, elementwise over the two kernel
component arrays. -/
def corr_time (Ki Ko : List ℚ) : List ℚ :=
  (List.zipWith (fun a b => a + b) Ki Ko).map (fun x => x / Ly)

/-- The header string written first to `EnergyAccumulation.txt`
(the script does not write a newline after it). -/
def eaHeader : String := "t(ps)  Energy-in(Ein)  Energy-out(Eout)"

/-- One data record `"{} {} {}".format(t[i],Ein[i],Eout[i])`, over the
already-rendered string forms of the three values. -/
def eaLine (r : String × String × String) : String :=
  r.1 ++ " " ++ r.2.1 ++ " " ++ r.2.2

/-- The full contents of `EnergyAccumulation.txt`: the header, then for each
sample the record followed by `"\n"`, appended in the order of the script's
`file.writelines` calls. -/
def eaContent (rows : List (String × String × String)) : String :=
  rows.foldl (fun acc r => acc ++ eaLine r ++ "\n") eaHeader

/-- The body of `EnergyAccumulation.txt` after the header: each record
followed by a newline.  Used to state the amended format claim. -/
def eaBody : List (String × String × String) → String
  | [] => ""
  | r :: rest => eaLine r ++ "\n" ++ eaBody rest

/-- `group_idx=range(1,10)`: the nine group indices 1..9. -/
def group_idx : List ℕ := List.range' 1 9

/-- The `TempProfile.txt` loop: for each loop counter `i` in the given list,
read `temp_ave[i]` and append the line `"{} {}".format(group_idx[i],
temp_ave[i])`; an out-of-range access raises `IndexError`, modelled as
`Except.error` carrying the lines already written (the partial file). -/
def tpGo {α : Type} (render : α → String) (vals : List α) :
    List ℕ → List String → Except (List String) (List String)
  | [], acc => Except.ok acc
  | i :: rest, acc =>
    match vals[i]? with
    | some v => tpGo render vals rest (acc ++ [toString (group_idx.getD i 0) ++ " " ++ render v])
    | none => Except.error acc

/-- The `TempProfile.txt` writer: `for i in range(len(group_idx))`, one line
per iteration.  `render` is the Python string rendering of an array entry. -/
def writeTempProfile {α : Type} (render : α → String) (vals : List α) :
    Except (List String) (List String) :=
  tpGo render vals (List.range group_idx.length) []

/-- Modelled from the spec: the `np.save`/`np.load` pair used for `Gc.npy`
is NumPy library code, not part of this repository; the spec only requires
that deserialization restore the array exactly.  The `.npy` container is
modelled as a flat integer stream holding the numerator/denominator pair of
each entry.  Encoding helper: the data section. -/
def npSaveAux : List ℚ → List ℤ
  | [] => []
  | q :: rest => q.num :: (q.den : ℤ) :: npSaveAux rest

/-- Modelled from the spec: serialize an array to the `Gc.npy` stream — a
length header followed by the data section. -/
def npSave (a : List ℚ) : List ℤ := (a.length : ℤ) :: npSaveAux a

/-- Modelled from the spec: decoding helper — read `n` numerator/denominator
pairs back into rationals. -/
def npLoadAux : ℕ → List ℤ → List ℚ
  | 0, _ => []
  | n + 1, x :: y :: rest => mkRat x y.toNat :: npLoadAux n rest
  | _ + 1, [_] => []
  | _ + 1, [] => []

/-- Modelled from the spec: deserialize a `Gc.npy` stream. -/
def npLoad (s : List ℤ) : List ℚ :=
  match s with
  | [] => []
  | n :: rest => npLoadAux n.toNat rest

/-! ### Helper lemmas -/

/-- `getD` through a `drop`: entry `i` of `xs.drop n` is entry `n + i` of `xs`. -/
lemma getD_after_drop {α : Type} (xs : List α) (n i : ℕ) (d : α) :
    (xs.drop n).getD i d = xs.getD (n + i) d := by
  simp [List.getD_eq_getElem?_getD, List.getElem?_drop]

/-- The sum of a mapped list as a `Finset.range` sum over `getD` entries. -/
lemma sum_map_getD {α : Type} (f : α → ℚ) (d : α) :
    ∀ xs : List α, (xs.map f).sum = ∑ i ∈ Finset.range xs.length, f (xs.getD i d) := by
  intro xs
  induction xs with
  | nil => simp
  | cons x xs ih =>
    rw [List.map_cons, List.sum_cons, ih, List.length_cons, Finset.sum_range_succ']
    simp [add_comm]

/-- `getD` through a doubling `map`, with the default absorbed (`2 * 0 = 0`). -/
lemma getD_map_double (xs : List ℚ) (i : ℕ) :
    (xs.map (fun x => 2 * x)).getD i 0 = 2 * xs.getD i 0 := by
  rcases Nat.lt_or_ge i xs.length with h | h
  · rw [List.getD_eq_getElem _ _ (by simpa using h), List.getD_eq_getElem _ _ h,
      List.getElem_map]
  · rw [List.getD_eq_default _ _ (by simpa using h), List.getD_eq_default _ _ h]
    ring

/-- `getD` through a `map` over a `zipWith`, under in-range hypotheses. -/
lemma getD_zipWith_map (f : ℚ → ℚ → ℚ) (g : ℚ → ℚ) (a b : List ℚ) (i : ℕ) (d : ℚ)
    (h1 : i < a.length) (h2 : i < b.length) :
    ((List.zipWith f a b).map g).getD i d = g (f (a.getD i d) (b.getD i d)) := by
  have hz : i < (List.zipWith f a b).length := by
    rw [List.length_zipWith]
    exact lt_min h1 h2
  have hm : i < ((List.zipWith f a b).map g).length := by simpa using hz
  rw [List.getD_eq_getElem _ _ hm, List.getD_eq_getElem _ _ h1, List.getD_eq_getElem _ _ h2,
    List.getElem_map, List.getElem_zipWith]

/-- `Q1` is invariant under doubling the energy series and the time step. -/
lemma Q1_scale (Ein : List ℚ) (ndata : ℕ) (dt Ns : ℚ) :
    Q1 (Ein.map (fun x => 2 * x)) ndata (2 * dt) Ns = Q1 Ein ndata dt Ns := by
  unfold Q1
  rw [getD_map_double, getD_map_double]
  simp only [div_eq_mul_inv, mul_inv]
  ring

/-- The `EnergyAccumulation.txt` write loop, from any already-written file
contents `acc`, appends exactly the body. -/
lemma eaContent_go (rows : List (String × String × String)) :
    ∀ acc : String, rows.foldl (fun a r => a ++ eaLine r ++ "\n") acc = acc ++ eaBody rows := by
  induction rows with
  | nil => intro acc; simp [eaBody, String.append_empty]
  | cons r rest ih =>
    intro acc
    rw [List.foldl_cons, ih]
    simp [eaBody, String.append_assoc]

/-- Decoding inverts encoding on the data section of the modelled `.npy`
stream. -/
lemma npLoadAux_npSaveAux : ∀ a : List ℚ, npLoadAux a.length (npSaveAux a) = a := by
  intro a
  induction a with
  | nil => rfl
  | cons q rest ih =>
    show npLoadAux (rest.length + 1) (q.num :: (q.den : ℤ) :: npSaveAux rest) = q :: rest
    simp only [npLoadAux, Int.toNat_natCast, Rat.mkRat_self, ih]

/-! ### Claim theorems -/

/-- C2 (code bug evidence): at `Ein = [0,0,1,3]`, `Eout = [0,0,0,0]`,
`ndata = 4`, `dt = 1`, `Ns = 1`, the script's `Q = mean([Q1,Q1])` evaluates
to `Q1 = -1`, while the arithmetic mean of the two distinct estimators
`Q1` and `Q2` is `-1/2`; the script's value is not the claimed mean. -/
theorem Q_self_average_bug :
    Q [0, 0, 1, 3] [0, 0, 0, 0] 4 1 1 = some (Q1 [0, 0, 1, 3] 4 1 1) ∧
    Q1 [0, 0, 1, 3] 4 1 1 = -1 ∧
    Q2 [0, 0, 0, 0] 4 1 1 = 0 ∧
    Q [0, 0, 1, 3] [0, 0, 0, 0] 4 1 1 ≠
      some ((Q1 [0, 0, 1, 3] 4 1 1 + Q2 [0, 0, 0, 0] 4 1 1) / 2) := by
  refine ⟨?_, ?_, ?_, ?_⟩ <;> norm_num [Q, Q1, Q2, npMean]

/-- C3: the conductance is the constant factor times the flux, divided by
the temperature difference and by the cross-sectional area (the product of
the first two geometry-constant components); scaling the area by `k > 0`
scales the conductance by `1 / k`. -/
theorem G_conductance_area_scaling :
    (∀ Qv deltaT, G Qv deltaT = G_area Qv deltaT (l.getD 0 0 * l.getD 1 0)) ∧
    (∀ Qv deltaT Av k, 0 < k → G_area Qv deltaT (k * Av) = G_area Qv deltaT Av / k) := by
  constructor
  · intro Qv deltaT
    rfl
  · intro Qv deltaT Av k _
    simp only [G_area, div_eq_mul_inv, mul_inv]
    ring

/-- Witness for C3 at `Qv = 1`, `deltaT = 2`, `Av = 5`, `k = 3`. -/
theorem G_conductance_area_scaling_witness :
    G_area 1 2 (3 * 5) = G_area 1 2 5 / 3 :=
  G_conductance_area_scaling.2 1 2 5 3 (by norm_num)

/-- C5 (counterexample): with the single rendered sample `("1", "2", "3")`,
the produced `EnergyAccumulation.txt` contents put the first data tuple on
the same line as the header — the header is not on a line of its own. -/
theorem eaContent_header_shares_line :
    eaContent [("1", "2", "3")] =
      "t(ps)  Energy-in(Ein)  Energy-out(Eout)" ++ "1 2 3" ++ "\n" ∧
    eaContent [("1", "2", "3")] ≠
      "t(ps)  Energy-in(Ein)  Energy-out(Eout)" ++ "\n" ++ "1 2 3" ++ "\n" := by
  constructor <;> decide

/-- C5 (amended): the writer emits the header with no trailing newline,
immediately followed by the data records, each record terminated by a
newline — so the header and the first data tuple share a line, and every
later tuple is on a line of its own. -/
theorem eaContent_format (rows : List (String × String × String)) :
    eaContent rows = eaHeader ++ eaBody rows :=
  eaContent_go rows eaHeader

/-- C7: the heat-flux estimator is invariant under simultaneously doubling
both energy series and doubling the time-step duration. -/
theorem Q_scale_invariant (Ein Eout : List ℚ) (ndata : ℕ) (dt Ns : ℚ) :
    Q (Ein.map (fun x => 2 * x)) (Eout.map (fun x => 2 * x)) ndata (2 * dt) Ns =
      Q Ein Eout ndata dt Ns := by
  unfold Q
  rw [Q1_scale]

/-- C8: for a temperature array with fewer than 2 time steps the reduction
averages over an empty slice, yielding the NaN-modelling `none` for every
retained group instead of signalling an error. -/
theorem temp_ave_short_series (w : ℕ) (T : List (List ℚ)) (h : T.length < 2) :
    temp_ave w T = (List.range (w - 1)).map (fun _ => (none : Option ℚ)) := by
  unfold temp_ave
  have hdrop : T.drop (T.length / 2 + 1) = [] := List.drop_eq_nil_of_le (by omega)
  simp [hdrop, npMean]

/-- Witness for C8 at a 1 × 3 temperature array. -/
theorem temp_ave_short_series_witness :
    temp_ave 3 [[1, 2, 3]] = (List.range (3 - 1)).map (fun _ => (none : Option ℚ)) :=
  temp_ave_short_series 3 [[1, 2, 3]] (by norm_num)

/-- C9: deserializing the modelled `Gc.npy` stream restores the spectral
conductance array exactly. -/
theorem npy_roundtrip (a : List ℚ) : npLoad (npSave a) = a := by
  show npLoadAux ((a.length : ℤ)).toNat (npSaveAux a) = a
  rw [Int.toNat_natCast]
  exact npLoadAux_npSaveAux a

/-- C1: for a temperature array with more than 2 time steps and more than 2
group columns, the reduction equals the mean over exactly the rows after the
midpoint index of every group column except the first, one value per
retained group. -/
theorem temp_ave_second_half (w : ℕ) (T : List (List ℚ))
    (hT : 2 < T.length) (_hw : 2 < w) (_hrect : ∀ row ∈ T, row.length = w) :
    temp_ave w T = (temp_ave_spec w T).map some := by
  unfold temp_ave temp_ave_spec
  rw [List.map_map]
  refine List.map_congr_left (fun j _hj => ?_)
  simp only [Function.comp_apply]
  have hm : T.length / 2 + 1 < T.length := by omega
  have hcol : ((T.drop (T.length / 2 + 1)).map (fun row => row.drop 1)).map
      (fun row => row.getD j 0) =
      (T.drop (T.length / 2 + 1)).map (fun row => row.getD (1 + j) 0) := by
    rw [List.map_map]
    exact List.map_congr_left (fun row _ => getD_after_drop row 1 j 0)
  rw [hcol]
  have hLne : (T.drop (T.length / 2 + 1)).map (fun row => row.getD (1 + j) 0) ≠ [] := by
    rw [Ne, List.map_eq_nil_iff, List.drop_eq_nil_iff]
    omega
  rw [npMean, if_neg (by simpa [List.isEmpty_iff] using hLne)]
  congr 1
  rw [sum_map_getD (fun row => row.getD (1 + j) 0) ([] : List ℚ) (T.drop (T.length / 2 + 1)),
    List.length_map, List.length_drop, Finset.sum_Ico_eq_sum_range, Nat.card_Ico]
  congr 1
  refine Finset.sum_congr rfl (fun i _hi => ?_)
  rw [getD_after_drop, Nat.add_comm 1 j]

/-- Witness for C1 at a 4 × 3 temperature array. -/
theorem temp_ave_second_half_witness :
    temp_ave 3 [[9, 1, 2], [9, 3, 4], [9, 5, 6], [9, 7, 8]] =
      (temp_ave_spec 3 [[9, 1, 2], [9, 3, 4], [9, 5, 6], [9, 7, 8]]).map some :=
  temp_ave_second_half 3 [[9, 1, 2], [9, 3, 4], [9, 5, 6], [9, 7, 8]]
    (by decide) (by decide) (by decide)

/-- C4: the correlation-time curve is the elementwise sum of the two kernel
components divided by the cell-width constant, the spectral conductance
curve is the fixed unit-conversion constant times the elementwise sum of
the two frequency-domain components divided by the cell volume and by the
temperature difference, the volume is built from the locally overridden
width `Ly`, and that override is distinct from the cell length used for the
cross-sectional area. -/
theorem spectral_curves (Ki Ko jwi jwo : List ℚ) (deltaT : ℚ) (i : ℕ)
    (h1 : i < Ki.length) (h2 : i < Ko.length) (h3 : i < jwi.length) (h4 : i < jwo.length) :
    (corr_time Ki Ko).getD i 0 = (Ki.getD i 0 + Ko.getD i 0) / Ly ∧
    (Gc jwi jwo deltaT).getD i 0 =
      (1.6 : ℚ) * 10 ^ 4 * (jwi.getD i 0 + jwo.getD i 0) / V / deltaT ∧
    V = Lx * Ly * Lz ∧
    Ly ≠ l.getD 1 0 := by
  refine ⟨?_, ?_, rfl, ?_⟩
  · unfold corr_time
    rw [getD_zipWith_map (fun a b => a + b) (fun x => x / Ly) Ki Ko i 0 h1 h2]
  · unfold Gc
    rw [getD_zipWith_map (fun a b => a + b)
      (fun x => (1.6 : ℚ) * 10 ^ 4 * x / V / deltaT) jwi jwo i 0 h3 h4]
  · norm_num [Ly, l]

/-- Witness for C4 at singleton spectral series. -/
theorem spectral_curves_witness :
    (corr_time [1] [2]).getD 0 0 =
      (([1] : List ℚ).getD 0 0 + ([2] : List ℚ).getD 0 0) / Ly ∧
    (Gc [3] [4] 5).getD 0 0 =
      (1.6 : ℚ) * 10 ^ 4 * (([3] : List ℚ).getD 0 0 + ([4] : List ℚ).getD 0 0) / V / 5 ∧
    V = Lx * Ly * Lz ∧
    Ly ≠ l.getD 1 0 :=
  spectral_curves [1] [2] [3] [4] 5 0 (by decide) (by decide) (by decide) (by decide)

/-- C6: when all arrays of the spectral series share one length, the
correlation-time curve has the length of the time axis and the spectral
conductance curve has the length of the frequency axis. -/
theorem spectral_lengths (Ki Ko jwi jwo t nu : List ℚ) (deltaT : ℚ) (n : ℕ)
    (hKi : Ki.length = n) (hKo : Ko.length = n) (hjwi : jwi.length = n)
    (hjwo : jwo.length = n) (ht : t.length = n) (hnu : nu.length = n) :
    (corr_time Ki Ko).length = t.length ∧ (Gc jwi jwo deltaT).length = nu.length := by
  constructor <;> simp [corr_time, Gc, hKi, hKo, hjwi, hjwo, ht, hnu]

/-- Witness for C6 at length-2 spectral series. -/
theorem spectral_lengths_witness :
    (corr_time [1, 2] [3, 4]).length = ([0, 1] : List ℚ).length ∧
    (Gc [5, 6] [7, 8] 9).length = ([0, 2] : List ℚ).length :=
  spectral_lengths [1, 2] [3, 4] [5, 6] [7, 8] [0, 1] [0, 2] 9 2
    rfl rfl rfl rfl rfl rfl

/-- When every loop index is in range, the `TempProfile.txt` loop succeeds
and appends one line per index. -/
lemma tpGo_ok {α : Type} (render : α → String) (vals : List α) :
    ∀ (b a : ℕ) (acc : List String), a + b ≤ vals.length →
      ∃ ls, tpGo render vals (List.range' a b) acc = Except.ok ls ∧
        ls.length = acc.length + b := by
  intro b
  induction b with
  | zero =>
    intro a acc _
    rw [List.range'_zero]
    exact ⟨acc, rfl, by simp⟩
  | succ b ih =>
    intro a acc h
    rw [List.range'_succ]
    have ha : a < vals.length := by omega
    obtain ⟨ls, h1, h2⟩ := ih (a + 1)
      (acc ++ [toString (group_idx.getD a 0) ++ " " ++ render vals[a]]) (by omega)
    refine ⟨ls, ?_, ?_⟩
    · simp only [tpGo, List.getElem?_eq_getElem ha]
      exact h1
    · have hx : (acc ++ [toString (group_idx.getD a 0) ++ " " ++
          render vals[a]]).length = acc.length + 1 := by simp
      omega

/-- When the loop reaches the first out-of-range index, the
`TempProfile.txt` loop fails with the partial file written so far. -/
lemma tpGo_err {α : Type} (render : α → String) (vals : List α) :
    ∀ (b a : ℕ) (acc : List String), a ≤ vals.length → vals.length < a + b →
      ∃ ls, tpGo render vals (List.range' a b) acc = Except.error ls ∧
        ls.length = acc.length + (vals.length - a) := by
  intro b
  induction b with
  | zero =>
    intro a acc h1 h2
    omega
  | succ b ih =>
    intro a acc h1 h2
    rw [List.range'_succ]
    rcases Nat.lt_or_ge a vals.length with ha | ha
    · obtain ⟨ls, hl1, hl2⟩ := ih (a + 1)
        (acc ++ [toString (group_idx.getD a 0) ++ " " ++ render vals[a]])
        (by omega) (by omega)
      refine ⟨ls, ?_, ?_⟩
      · simp only [tpGo, List.getElem?_eq_getElem ha]
        exact hl1
      · have hx : (acc ++ [toString (group_idx.getD a 0) ++ " " ++
            render vals[a]]).length = acc.length + 1 := by simp
        omega
    · refine ⟨acc, ?_, by omega⟩
      simp only [tpGo, List.getElem?_eq_none ha]

/-- C10: the `TempProfile.txt` writer iterates the hard-coded indices 1..9:
with at least 10 group columns it writes exactly 9 lines (dropping further
retained groups), and with fewer than 10 group columns the access to the
retained-group averages goes out of range and the write fails, leaving the
partial file of the `w - 1` lines written before the failure. -/
theorem temp_profile_nine_lines (render : Option ℚ → String) (w : ℕ) (T : List (List ℚ)) :
    (10 ≤ w → ∃ ls, writeTempProfile render (temp_ave w T) = Except.ok ls ∧
      ls.length = 9) ∧
    (w < 10 → ∃ ls, writeTempProfile render (temp_ave w T) = Except.error ls ∧
      ls.length = w - 1) := by
  have hlen : (temp_ave w T).length = w - 1 := by simp [temp_ave]
  have hgi : group_idx.length = 9 := rfl
  constructor
  · intro hw
    obtain ⟨ls, h1, h2⟩ := tpGo_ok render (temp_ave w T) 9 0 [] (by omega)
    refine ⟨ls, ?_, by simpa using h2⟩
    unfold writeTempProfile
    rw [hgi, List.range_eq_range']
    exact h1
  · intro hw
    obtain ⟨ls, h1, h2⟩ := tpGo_err render (temp_ave w T) 9 0 [] (by omega) (by omega)
    refine ⟨ls, ?_, by simp at h2; omega⟩
    unfold writeTempProfile
    rw [hgi, List.range_eq_range']
    exact h1

/-- Witness for C10 at a 1 × 10 and a 1 × 3 temperature array. -/
theorem temp_profile_nine_lines_witness :
    (∃ ls, writeTempProfile (fun _ => "v") (temp_ave 10 [[1]]) = Except.ok ls ∧
      ls.length = 9) ∧
    (∃ ls, writeTempProfile (fun _ => "v") (temp_ave 3 [[1]]) = Except.error ls ∧
      ls.length = 3 - 1) :=
  ⟨(temp_profile_nine_lines (fun _ => "v") 10 [[1]]).1 (by norm_num),
   (temp_profile_nine_lines (fun _ => "v") 3 [[1]]).2 (by norm_num)⟩

end PlotNemd
